import Mathlib

/-!
Verification development for the CloudFront-Updater pipeline of
`src/lambda/lambda-updater/index.ts` (the SiteSync core).

The TypeScript handler is embedded shallowly: every helper of the source
file becomes a pure Lean function, and the handler itself becomes a
function from an environment (bucket contents, the body of the source
object, the distribution list of the account, the clock reading, the MIME table, the
outcomes of the invalidation submissions) to the ordered list of external
effects it issues plus its final result.
-/

namespace SiteSync

/-! ### String helpers

The source manipulates keys with `String.prototype.startsWith`,
`replace(/^zip\//, "")`, `replace(/\.zip$/, "")`, `replace(/^.*?\//, "")`
and `split("/")[0]`.  They are modelled over the character list of the
string so that every definition reduces in the kernel. -/

/-- JavaScript `s.startsWith p`. -/
def strStartsWith (s p : String) : Bool :=
  p.data.isPrefixOf s.data

/-- JavaScript `s.endsWith p`. -/
def strEndsWith (s p : String) : Bool :=
  p.data.isSuffixOf s.data

/-- Source `key.replace(/^zip\//, "")`: removes a leading `zip/` when present. -/
def stripLeadingZip (s : String) : String :=
  if strStartsWith s "zip/" then String.mk (s.data.drop 4) else s

/-- Source `key.replace(/\.zip$/, "")`: removes a trailing `.zip` when present. -/
def stripTrailingDotZip (s : String) : String :=
  if strEndsWith s ".zip" then String.mk (s.data.take (s.data.length - 4)) else s

/-- The characters after the first `'/'`, or `none` when the list has no
`'/'`.  This is the action of the non-greedy regex `^.*?\/`. -/
def afterFirstSlash : List Char → Option (List Char)
  | [] => none
  | c :: cs => if c = '/' then some cs else afterFirstSlash cs

/-- Source `path.replace(/^.*?\//, "")` from `uploadFileToS3`: removes everything
up to and including the first `'/'`; a path with no `'/'` is unchanged. -/
def dropThroughFirstSlash (s : String) : String :=
  match afterFirstSlash s.data with
  | some cs => String.mk cs
  | none => s

/-- Modelled from the spec: `drop_first_segment` — the path split on `'/'`
with its first segment removed and the rest rejoined.  On a path that
contains no `'/'` (a single segment) the result is the empty string,
unlike `dropThroughFirstSlash`, which leaves such a path unchanged. -/
def specDropFirstSegment (s : String) : String :=
  match afterFirstSlash s.data with
  | some cs => String.mk cs
  | none => ""

/-- Whether the string contains a `'/'`. -/
def strContainsSlash (s : String) : Bool :=
  s.data.any (fun c => c = '/')

/-- Source `destinationPath.split("/")[0]` from the handler: the text before the
first `'/'` (the whole string when it has no `'/'`). -/
def firstSegment (s : String) : String :=
  String.mk (s.data.takeWhile (fun c => !(c = '/')))

/-- A key matches the staging pattern `^zip/.+\.zip$` exactly when it
starts with `zip/`, ends with `.zip`, and has at least one character in
between. -/
def matchesStagingPattern (k : String) : Bool :=
  strStartsWith k "zip/" && strEndsWith k ".zip" && decide (9 ≤ k.data.length)

/-! ### MIME lookup

The source computes `lookup(filePath) || "application/octet-stream"` with
`lookup` from the external `mime-types` package.  That library is not part
of this repository; per its contract it resolves the lower-cased file
extension (the text after the last `'.'` of the last path segment) against
a MIME table and reports failure when the path has no extension or the
extension is unknown.  The table itself is a parameter of the model. -/

/-- The characters after the last occurrence of `c`, or `none`. -/
def afterLastChar (c : Char) : List Char → Option (List Char)
  | [] => none
  | x :: xs =>
    match afterLastChar c xs with
    | some r => some r
    | none => if x = c then some xs else none

/-- The extension of a path: the text after the last `'.'` of the last
`'/'`-segment, lower-cased; `none` when that segment has no `'.'` past its
first character (a leading dot marks a hidden file, not an extension). -/
def extensionOf (path : String) : Option String :=
  let base := (afterLastChar '/' path.data).getD path.data
  match base with
  | [] => none
  | _ :: rest =>
    match afterLastChar '.' rest with
    | some r => some (String.mk (r.map Char.toLower))
    | none => none

/-- Function `lookup(filePath)` of the `mime-types` package, with the extension
table `db` as a parameter. -/
def mimeLookup (db : String → Option String) (path : String) : Option String :=
  (extensionOf path).bind db

/-! ### Data model -/

/-- Field `entry.type` of an unzipper entry: `"File"` or `"Directory"`. -/
inductive EntryType where
  | File
  | Directory
deriving DecidableEq, Repr

/-- One member of the archive, as yielded by `Parse()` of unzipper: its
in-archive path and its type.  The body bytes play no role in any claim
and are not modelled. -/
structure ZipEntry where
  path : String
  type : EntryType
deriving DecidableEq, Repr

/-- One CloudFront distribution summary as the source reads it: the SDK
declares both `Id` and `Comment` as optional strings. -/
structure Distribution where
  Id : Option String
  Comment : Option String
deriving DecidableEq, Repr

/-- Failures of `getDistributionIdByName`. -/
inductive DistErr where
  | NoDistributions
  | NotFound (name : String)
deriving DecidableEq, Repr

/-- One external request issued by the handler, in issue order. -/
inductive Effect where
  | listObjects (pfx : String)
  | deleteObjects (keys : List String)
  | getObject (key : String)
  | upload (key : String) (contentType : String)
  | listDistributions
  | createInvalidation (distributionId : String) (paths : List String)
      (callerReference : String)
deriving DecidableEq, Repr

/-- Outcome of one invocation: the handler either returns normally or
throws (the platform then records a failed invocation). -/
inductive HResult where
  | success
  | failure
deriving DecidableEq, Repr

/-- What the handler parses out of the body stream of the source object:
either no readable stream was present, or the unzip parser failed, or it
yielded this list of entries in order. -/
inductive BodyRead where
  | noBody
  | malformed
  | entries (es : List ZipEntry)
deriving DecidableEq, Repr

/-- The external world one invocation observes: the keys of the artifact
bucket (for the purge listing), the body of the source object, the
distribution list of the account (`DistributionList?.Items`, absent or present), the
`Date.now()` reading, the MIME table, and whether the i-th
`CreateInvalidation` submission succeeds. -/
structure Env where
  bucketKeys : List String
  body : BodyRead
  distributions : Option (List Distribution)
  now : Nat
  mimeDb : String → Option String
  invalidationOk : Nat → Bool

/-! ### retryWithBackoff -/

/-- An error escaping `retryWithBackoff`: the own error of the wrapped
function, or the unreachable `throw new Error("Retries exhausted")` after
the loop. -/
inductive RetryError (ε : Type) where
  | fnError (e : ε)
  | exhaustedMessage
deriving DecidableEq, Repr

/-- Everything observable about one run of `retryWithBackoff`: its
result, the backoff waits it slept (in order, in ms), and how many times
it called the wrapped function. -/
structure RetryRun (ε α : Type) where
  result : Except (RetryError ε) α
  delays : List Nat
  attempts : Nat
deriving Repr

/-- The `while (retries > 0)` loop of `retryWithBackoff`, with the
mutable `attempt` counter and remaining `retries` as arguments and the
outcome of the i-th call to `fn` supplied by `outcomes`. -/
def retryAux (outcomes : Nat → Except ε α) (delay : Nat) :
    Nat → Nat → RetryRun ε α
  | _, 0 => ⟨Except.error RetryError.exhaustedMessage, [], 0⟩
  | attempt, r + 1 =>
    match outcomes attempt with
    | Except.ok a => ⟨Except.ok a, [], 1⟩
    | Except.error e =>
      if r = 0 then ⟨Except.error (RetryError.fnError e), [], 1⟩
      else
        let rest := retryAux outcomes delay (attempt + 1) r
        ⟨rest.result, delay * 2 ^ (attempt + 1) :: rest.delays, rest.attempts + 1⟩

/-- Function `retryWithBackoff(fn, retries, delay = 1000)` of the source: attempts
`fn`; on error decrements `retries`, increments `attempt`, rethrows when
no retries remain, and otherwise sleeps `delay * 2 ** attempt` ms and
loops.  Every error is treated alike — the source inspects no error
kind. -/
def retryWithBackoff (outcomes : Nat → Except ε α) (retries : Nat)
    (delay : Nat) : RetryRun ε α :=
  retryAux outcomes delay 0 retries

/-! ### PrefixPurger: deleteS3ObjectsAtPath -/

/-- The batch split of `deleteS3ObjectsAtPath`:
`for (let i = 0; i < contents.length; i += 1000) slice(i, i + 1000)`. -/
def batchesOf1000 (l : List String) : List (List String) :=
  (List.range ((l.length + 999) / 1000)).map
    (fun j => (l.drop (1000 * j)).take 1000)

/-- Concatenation of a list of key batches. -/
def joinAll : List (List String) → List String
  | [] => []
  | x :: xs => x ++ joinAll xs

/-- The requests of the purge loop over the successive listing pages:
each iteration issues one `ListObjectsV2` and, when the page is
non-empty, one quiet `DeleteObjects` per batch of at most 1000 keys. -/
def purgePages (pfx : String) : List (List String) → List Effect
  | [] => []
  | page :: rest =>
    Effect.listObjects pfx ::
      ((batchesOf1000 page).map Effect.deleteObjects ++ purgePages pfx rest)

/-- The full request trace of `deleteS3ObjectsAtPath`: when the listing
yields no page at all the loop still runs once and issues a single
(empty-result) `ListObjectsV2`. -/
def purgeTrace (pages : List (List String)) (pfx : String) : List Effect :=
  if pages.isEmpty then [Effect.listObjects pfx] else purgePages pfx pages

/-- The pages `ListObjectsV2` serves for a bucket and a prefix: per the
storage contract the listing enumerates exactly the keys that start with
the prefix string, in pages of at most 1000 keys linked by continuation
tokens. -/
def listPagesOf (bucket : List String) (pfx : String) : List (List String) :=
  batchesOf1000 (bucket.filter (fun k => strStartsWith k pfx))

/-! ### PrefixPublisher: uploadFileToS3 -/

/-- The final S3 key of `uploadFileToS3`: the entry path with a leading
`zip/` stripped and everything up to the first `'/'` removed, appended to
the destination path. -/
def uploadFileKey (destinationPath filePath : String) : String :=
  destinationPath ++ "/" ++ dropThroughFirstSlash (stripLeadingZip filePath)

/-- The `ContentType` of `uploadFileToS3`:
`lookup(filePath) || "application/octet-stream"`. -/
def uploadContentType (db : String → Option String) (filePath : String) :
    String :=
  (mimeLookup db filePath).getD "application/octet-stream"

/-- The uploads the extraction loop starts, in entry order: `File`
entries are uploaded, `Directory` entries are drained and skipped.  Each
element is the `PutObject` request as issued; when its response arrives
is not recorded here — the source nowhere awaits the per-entry upload
promises (see `scheduleOk`). -/
def uploadsTrace (db : String → Option String) (entries : List ZipEntry)
    (destinationPath : String) : List Effect :=
  (entries.filter (fun e => e.type = EntryType.File)).map
    (fun e => Effect.upload (uploadFileKey destinationPath e.path)
      (uploadContentType db e.path))

/-! ### DistributionResolver: getDistributionIdByName -/

/-- Source `d.Comment === distributionName`. -/
def commentMatches (name : String) (d : Distribution) : Bool :=
  d.Comment = some name

/-- Function `getDistributionIdByName` of the source: errors when the
distribution list is absent or empty; finds the first distribution whose
comment equals the name; errors when there is none or when the `Id` of the found
entry is falsy (absent or the empty string); returns the id
otherwise. -/
def getDistributionIdByName (items : Option (List Distribution))
    (name : String) : Except DistErr String :=
  match items with
  | none => Except.error DistErr.NoDistributions
  | some ds =>
    if ds.isEmpty then Except.error DistErr.NoDistributions
    else
      match ds.find? (commentMatches name) with
      | none => Except.error (DistErr.NotFound name)
      | some d =>
        match d.Id with
        | none => Except.error (DistErr.NotFound name)
        | some i => if i = "" then Except.error (DistErr.NotFound name)
                    else Except.ok i

/-! ### Invalidator: invalidateCloudFront -/

/-- The submission function `invalidateCloudFront` hands to
`retryWithBackoff`: the i-th `CreateInvalidation` send either resolves or
rejects, as told by `outcomes`. -/
def boolOutcomes (outcomes : Nat → Bool) : Nat → Except Unit Unit :=
  fun i => if outcomes i then Except.ok () else Except.error ()

/-- Function `invalidateCloudFront` of the source: one caller reference
`` `${Date.now()}` `` is fixed up front, and the `CreateInvalidation`
request — paths `["/*"]`, quantity 1 — is submitted under
`retryWithBackoff(fn, 3)`; each attempt re-issues the identical request.
Returns the issued requests and whether the run succeeded. -/
def invalidateTrace (outcomes : Nat → Bool) (distributionId : String)
    (now : Nat) : List Effect × Bool :=
  let callerReference := Nat.repr now
  let run := retryWithBackoff (boolOutcomes outcomes) 3 1000
  (List.replicate run.attempts
      (Effect.createInvalidation distributionId ["/*"] callerReference),
    run.result.toBool)

/-! ### EventDispatcher: the handler -/

/-- The destination path of the handler:
`key.replace(/^zip\//, "").replace(/\.zip$/, "")`. -/
def destinationPathOf (decodedKey : String) : String :=
  stripTrailingDotZip (stripLeadingZip decodedKey)

/-- The resolution-plus-invalidation tail of the handler, entered after
`extractAndUploadZipFile` returns normally: list the distributions,
resolve by comment, and on success submit the invalidation under
retry. -/
def resolveAndInvalidate (env : Env) (destinationPath : String)
    (fx : List Effect) : List Effect × HResult :=
  match getDistributionIdByName env.distributions
      (firstSegment destinationPath) with
  | Except.error _ => (fx ++ [Effect.listDistributions], HResult.failure)
  | Except.ok i =>
    let inv := invalidateTrace env.invalidationOk i env.now
    (fx ++ Effect.listDistributions :: inv.1,
      if inv.2 then HResult.success else HResult.failure)

/-- The CloudFront-Updater `handler`, as the ordered list of external
requests it issues — in issue order — and its outcome, for the (already
URL-decoded) object key of the first event record.  Keys outside `zip/`
are skipped silently; otherwise the destination is purged, the source
object fetched, its entries uploaded (a missing body skips extraction
only; a malformed archive throws), and finally the distribution is
resolved and invalidated.  The purge, the object read, the distribution
listing and each invalidation submission are awaited in sequence by the
source, so for them issue order and completion order coincide; the
per-entry upload promises, however, are never awaited — the unzip finish
event fires without waiting on them — so this trace records when each
`PutObject` request is issued, not when its response arrives.  The
completion granularity of the publish stage is modelled separately by
`scheduleOk`. -/
def handlerModel (env : Env) (decodedKey : String) : List Effect × HResult :=
  if strStartsWith decodedKey "zip/" = false then ([], HResult.success)
  else
    let destinationPath := destinationPathOf decodedKey
    let purgeFx := purgeTrace (listPagesOf env.bucketKeys destinationPath)
      destinationPath
    match env.body with
    | BodyRead.noBody =>
      resolveAndInvalidate env destinationPath
        (purgeFx ++ [Effect.getObject decodedKey])
    | BodyRead.malformed =>
      (purgeFx ++ [Effect.getObject decodedKey], HResult.failure)
    | BodyRead.entries es =>
      resolveAndInvalidate env destinationPath
        (purgeFx ++ Effect.getObject decodedKey ::
          uploadsTrace env.mimeDb es destinationPath)

/-! ### Observations over a request trace -/

/-- The effect is a bulk delete (a write). -/
def isDeleteE : Effect → Prop
  | Effect.deleteObjects _ => True
  | _ => False

/-- The effect is an object upload (a write). -/
def isUploadE : Effect → Prop
  | Effect.upload _ _ => True
  | _ => False

/-- The effect is a `CreateInvalidation` submission. -/
def isInvalE : Effect → Prop
  | Effect.createInvalidation _ _ _ => True
  | _ => False

/-- All keys named by the bulk-delete requests of the trace, in order. -/
def deletedKeys : List Effect → List String
  | [] => []
  | Effect.deleteObjects ks :: rest => ks ++ deletedKeys rest
  | _ :: rest => deletedKeys rest

/-- How many `CreateInvalidation` submissions the trace contains. -/
def invalidationCount : List Effect → Nat
  | [] => 0
  | Effect.createInvalidation _ _ _ :: rest => invalidationCount rest + 1
  | _ :: rest => invalidationCount rest

/-- Every effect satisfying `p` occurs strictly before every effect
satisfying `q` in the trace. -/
def beforeAll (p q : Effect → Prop) (tr : List Effect) : Prop :=
  ∀ i j, (hi : i < tr.length) → (hj : j < tr.length) →
    p tr[i] → q tr[j] → i < j

/-! ### Completion granularity of the publish stage

`extractAndUploadFromStream` registers `unzipStream.on("entry", async …)`
and resolves its promise on the stream finish event.  The finish
handler does not await the promises the async entry listener created, so
the source orders events as follows, and no further: entry i has its
upload started before entry i+1 (the parser advances only once the
previous entry stream is consumed), every upload is started before
finish fires (finish needs all bytes parsed), each upload completes some
time after it started, and the invalidation is issued after finish (and
after resolution).  Nothing makes an upload completion precede finish —
or the invalidation. -/

/-- One event of the publish stage of an invocation with file entries
numbered `0, …, n-1`, at completion granularity. -/
inductive PubEvent where
  | uploadStarted (i : Nat)
  | uploadCompleted (i : Nat)
  | finishFired
  | invalidationIssued
deriving DecidableEq, Repr

/-- Event `a` occurs strictly before event `b` in the schedule (each
event occurs at most once, so its first index is its position). -/
def schedPrecedes (s : List PubEvent) (a b : PubEvent) : Prop :=
  s.indexOf a < s.indexOf b

/-- The schedules of the publish stage that the synchronization in the
source admits, for `n` file entries: each event occurs exactly once;
upload `i` starts before it completes; uploads start in entry order; all
uploads start before the finish event; and the invalidation is issued
after the finish event.  No constraint places an upload completion
before the finish event or before the invalidation — the finish handler
awaits none of the entry-listener promises. -/
def scheduleOk (n : Nat) (s : List PubEvent) : Prop :=
  s.count PubEvent.finishFired = 1 ∧
  s.count PubEvent.invalidationIssued = 1 ∧
  (∀ i ∈ List.range n, s.count (PubEvent.uploadStarted i) = 1 ∧
    s.count (PubEvent.uploadCompleted i) = 1) ∧
  (∀ i ∈ List.range n,
    schedPrecedes s (PubEvent.uploadStarted i) (PubEvent.uploadCompleted i)) ∧
  (∀ i ∈ List.range n, ∀ j ∈ List.range n, i < j →
    schedPrecedes s (PubEvent.uploadStarted i) (PubEvent.uploadStarted j)) ∧
  (∀ i ∈ List.range n,
    schedPrecedes s (PubEvent.uploadStarted i) PubEvent.finishFired) ∧
  schedPrecedes s PubEvent.finishFired PubEvent.invalidationIssued

instance (s : List PubEvent) (a b : PubEvent) :
    Decidable (schedPrecedes s a b) := by
  unfold schedPrecedes
  infer_instance

instance (n : Nat) (s : List PubEvent) : Decidable (scheduleOk n s) := by
  unfold scheduleOk
  infer_instance

/-! ### Concrete environments used by the witnesses and counterexamples -/

/-- A MIME table holding the two entries the scenarios exercise. -/
def dbHtmlJs : String → Option String :=
  fun e => if e = "html" then some "text/html"
    else if e = "js" then some "application/javascript" else none

/-- An invocation whose archive holds a single root-level file entry;
its MIME table carries the bundled `mime-types` entries the input
touches (`html` maps to `text/html`). -/
def envC1 : Env :=
  ⟨[], BodyRead.entries [⟨"index.html", EntryType.File⟩],
    some [⟨some "D1", some "app1"⟩], 7, dbHtmlJs, fun _ => true⟩

/-- An invocation whose archive holds a directory and two files. -/
def envW1 : Env :=
  ⟨["app1/release/stale.txt"],
    BodyRead.entries
      [⟨"release/", EntryType.Directory⟩,
       ⟨"release/index.html", EntryType.File⟩,
       ⟨"release/assets/app.js", EntryType.File⟩],
    some [⟨some "D1", some "app1"⟩], 3, dbHtmlJs, fun _ => true⟩

/-- A bucket holding a key under the textual sibling of the destination. -/
def envC3 : Env :=
  ⟨["notes.txt/old.html"], BodyRead.malformed, none, 0,
    fun _ => none, fun _ => true⟩

/-- A bucket with unrelated keys, among them the staging archive itself. -/
def envC6 : Env :=
  ⟨["app1/index.html", "zip/app1/site.zip"], BodyRead.entries [],
    some [], 0, fun _ => none, fun _ => true⟩

/-- An object-read response carrying no body. -/
def envC7 : Env :=
  ⟨[], BodyRead.noBody, some [⟨some "D1", some "app1"⟩], 5,
    fun _ => none, fun _ => true⟩

/-- A transient failure on the first invalidation submission only. -/
def envC8 : Env :=
  ⟨[], BodyRead.entries [], some [⟨some "D1", some "app1"⟩], 7,
    fun _ => none, fun i => !(i = 0)⟩

/-- A plain successful invocation. -/
def envW8 : Env :=
  ⟨[], BodyRead.entries [⟨"v1/a.html", EntryType.File⟩],
    some [⟨some "D1", some "app1"⟩], 11, dbHtmlJs, fun _ => true⟩

/-- An invocation exercising a purge hit, an upload and an
invalidation in one trace. -/
def envW2 : Env :=
  ⟨["app1/site/old.css"],
    BodyRead.entries [⟨"site/index.html", EntryType.File⟩],
    some [⟨some "D1", some "app1"⟩], 9, dbHtmlJs, fun _ => true⟩

/-! ### Lemmas about the purge batching -/

theorem batchesOf1000_nil : batchesOf1000 [] = [] := rfl

theorem batchesOf1000_eq_cons (l : List String) (h : l ≠ []) :
    batchesOf1000 l = l.take 1000 :: batchesOf1000 (l.drop 1000) := by
  have hlen : 0 < l.length := List.length_pos.mpr h
  have hcount : (l.length + 999) / 1000 = ((l.drop 1000).length + 999) / 1000 + 1 := by
    rw [List.length_drop]
    rcases le_or_lt 1000 l.length with hle | hlt
    · have heq : l.length + 999 = (l.length - 1000 + 999) + 1000 := by omega
      rw [heq, Nat.add_div_right _ (by norm_num)]
    · have h1 : l.length - 1000 = 0 := by omega
      have h2 : (l.length + 999) / 1000 = 1 :=
        Nat.div_eq_of_lt_le (by omega) (by omega)
      rw [h1, h2]
  unfold batchesOf1000
  rw [hcount, List.range_succ_eq_map, List.map_cons, List.map_map]
  refine congrArg₂ _ (by simp) ?_
  refine List.map_congr_left fun j _ => ?_
  show (l.drop (1000 * (j + 1))).take 1000 = ((l.drop 1000).drop (1000 * j)).take 1000
  rw [List.drop_drop]
  congr 2
  omega

theorem joinAll_batchesOf1000 (l : List String) :
    joinAll (batchesOf1000 l) = l := by
  by_cases h : l = []
  · subst h; rfl
  · rw [batchesOf1000_eq_cons l h]
    show l.take 1000 ++ joinAll (batchesOf1000 (l.drop 1000)) = l
    rw [joinAll_batchesOf1000 (l.drop 1000)]
    exact List.take_append_drop 1000 l
termination_by l.length
decreasing_by
  simp only [List.length_drop]
  have := List.length_pos.mpr h
  omega

theorem batchesOf1000_mem_length {l b : List String}
    (hb : b ∈ batchesOf1000 l) : b.length ≤ 1000 := by
  unfold batchesOf1000 at hb
  rw [List.mem_map] at hb
  obtain ⟨j, _, rfl⟩ := hb
  rw [List.length_take]
  exact min_le_left _ _

theorem deletedKeys_append (a b : List Effect) :
    deletedKeys (a ++ b) = deletedKeys a ++ deletedKeys b := by
  induction a with
  | nil => rfl
  | cons e rest ih =>
    cases e <;> simp [deletedKeys, ih]

theorem deletedKeys_map_deleteObjects (bs : List (List String)) :
    deletedKeys (bs.map Effect.deleteObjects) = joinAll bs := by
  induction bs with
  | nil => rfl
  | cons b rest ih => simp [deletedKeys, joinAll, ih]

theorem deletedKeys_purgePages (pfx : String) (pages : List (List String)) :
    deletedKeys (purgePages pfx pages) = joinAll pages := by
  induction pages with
  | nil => rfl
  | cons page rest ih =>
    show deletedKeys (Effect.listObjects pfx ::
      ((batchesOf1000 page).map Effect.deleteObjects ++ purgePages pfx rest)) = _
    rw [show deletedKeys (Effect.listObjects pfx ::
        ((batchesOf1000 page).map Effect.deleteObjects ++ purgePages pfx rest)) =
        deletedKeys ((batchesOf1000 page).map Effect.deleteObjects ++
          purgePages pfx rest) from rfl,
      deletedKeys_append, deletedKeys_map_deleteObjects,
      joinAll_batchesOf1000, ih]
    rfl

theorem deletedKeys_purgeTrace_filter (bucket : List String) (pfx : String) :
    deletedKeys (purgeTrace (listPagesOf bucket pfx) pfx) =
      bucket.filter (fun k => strStartsWith k pfx) := by
  unfold purgeTrace listPagesOf
  by_cases h : bucket.filter (fun k => strStartsWith k pfx) = []
  · rw [h, batchesOf1000_nil]
    simp [deletedKeys, h]
  · rw [batchesOf1000_eq_cons _ h]
    simp only [List.isEmpty_cons, Bool.false_eq_true, if_false]
    rw [← batchesOf1000_eq_cons _ h, deletedKeys_purgePages,
      joinAll_batchesOf1000]

theorem purgePages_deleteObjects_mem {pfx : String}
    {pages : List (List String)} {ks : List String}
    (h : Effect.deleteObjects ks ∈ purgePages pfx pages) :
    ∃ page ∈ pages, ks ∈ batchesOf1000 page := by
  induction pages with
  | nil => simp [purgePages] at h
  | cons page rest ih =>
    simp only [purgePages, List.mem_cons, List.mem_append] at h
    rcases h with h | h | h
    · exact absurd h (by simp)
    · rw [List.mem_map] at h
      obtain ⟨b, hb, hbe⟩ := h
      exact ⟨page, List.mem_cons_self _ _, by injection hbe with h1; exact h1 ▸ hb⟩
    · obtain ⟨pg, hpg, hks⟩ := ih h
      exact ⟨pg, List.mem_cons_of_mem _ hpg, hks⟩

theorem purgeTrace_deleteObjects_le_1000 {pages : List (List String)}
    {pfx : String} {ks : List String}
    (h : Effect.deleteObjects ks ∈ purgeTrace pages pfx) :
    ks.length ≤ 1000 := by
  unfold purgeTrace at h
  by_cases hp : pages.isEmpty
  · rw [if_pos hp] at h
    simp at h
  · rw [if_neg hp] at h
    obtain ⟨page, _, hks⟩ := purgePages_deleteObjects_mem h
    exact batchesOf1000_mem_length hks

/-! ### Lemmas about path splitting -/

theorem afterFirstSlash_none_of_no_slash {l : List Char}
    (h : afterFirstSlash l = none) : l.any (fun c => c = '/') = false := by
  induction l with
  | nil => rfl
  | cons c cs ih =>
    unfold afterFirstSlash at h
    by_cases hc : c = '/'
    · rw [if_pos hc] at h; exact absurd h (by simp)
    · rw [if_neg hc] at h
      simp only [List.any_cons, Bool.or_eq_false_iff, decide_eq_false_iff_not]
      exact ⟨hc, ih h⟩

theorem afterFirstSlash_some_of_slash {l cs : List Char}
    (h : afterFirstSlash l = some cs) : l.any (fun c => c = '/') = true := by
  induction l generalizing cs with
  | nil => exact absurd h (by simp [afterFirstSlash])
  | cons c rest ih =>
    unfold afterFirstSlash at h
    by_cases hc : c = '/'
    · simp [hc]
    · rw [if_neg hc] at h
      simp only [List.any_cons, Bool.or_eq_true, decide_eq_true_eq]
      exact Or.inr (ih h)

/-- On a path that contains a `'/'`, the replace of the source,
`replace(/^.*?\//, "")`, agrees with the `drop_first_segment` of the
spec. -/
theorem dropThroughFirstSlash_eq_spec {s : String}
    (h : strContainsSlash s = true) :
    dropThroughFirstSlash s = specDropFirstSegment s := by
  unfold dropThroughFirstSlash specDropFirstSegment
  cases hafs : afterFirstSlash s.data with
  | some cs => rfl
  | none =>
    unfold strContainsSlash at h
    rw [afterFirstSlash_none_of_no_slash hafs] at h
    exact absurd h (by simp)

/-- On a path with no `'/'`, the replace of the source,
`replace(/^.*?\//, "")`, is the identity. -/
theorem dropThroughFirstSlash_eq_self {s : String}
    (h : strContainsSlash s = false) :
    dropThroughFirstSlash s = s := by
  unfold dropThroughFirstSlash
  cases hafs : afterFirstSlash s.data with
  | none => rfl
  | some cs =>
    unfold strContainsSlash at h
    rw [afterFirstSlash_some_of_slash hafs] at h
    exact absurd h (by simp)

/-! ### Shape of the traces -/

theorem purgePages_shape {pfx : String} {pages : List (List String)}
    {e : Effect} (he : e ∈ purgePages pfx pages) :
    (∃ p, e = Effect.listObjects p) ∨ (∃ ks, e = Effect.deleteObjects ks) := by
  induction pages with
  | nil => simp [purgePages] at he
  | cons page rest ih =>
    simp only [purgePages, List.mem_cons, List.mem_append] at he
    rcases he with he | he | he
    · exact Or.inl ⟨pfx, he⟩
    · rw [List.mem_map] at he
      obtain ⟨b, _, hbe⟩ := he
      exact Or.inr ⟨b, hbe.symm⟩
    · exact ih he

theorem purgeTrace_shape {pages : List (List String)} {pfx : String}
    {e : Effect} (he : e ∈ purgeTrace pages pfx) :
    (∃ p, e = Effect.listObjects p) ∨ (∃ ks, e = Effect.deleteObjects ks) := by
  unfold purgeTrace at he
  by_cases hp : pages.isEmpty
  · rw [if_pos hp] at he
    rw [List.mem_singleton] at he
    exact Or.inl ⟨pfx, he⟩
  · rw [if_neg hp] at he
    exact purgePages_shape he

theorem uploadsTrace_shape {db : String → Option String}
    {entries : List ZipEntry} {destinationPath : String} {e : Effect}
    (he : e ∈ uploadsTrace db entries destinationPath) :
    ∃ k c, e = Effect.upload k c := by
  unfold uploadsTrace at he
  rw [List.mem_map] at he
  obtain ⟨z, _, hze⟩ := he
  exact ⟨_, _, hze.symm⟩

theorem resolveAndInvalidate_trace (env : Env) (destinationPath : String)
    (fx : List Effect) :
    ∃ tail, (resolveAndInvalidate env destinationPath fx).1 = fx ++ tail ∧
      ∀ e ∈ tail, e = Effect.listDistributions ∨
        ∃ i, e = Effect.createInvalidation i ["/*"] (Nat.repr env.now) := by
  unfold resolveAndInvalidate
  cases hr : getDistributionIdByName env.distributions
      (firstSegment destinationPath) with
  | error er =>
    exact ⟨[Effect.listDistributions], rfl, by simp⟩
  | ok i =>
    refine ⟨Effect.listDistributions ::
      (invalidateTrace env.invalidationOk i env.now).1, rfl, ?_⟩
    intro e he
    rcases List.mem_cons.mp he with he | he
    · exact Or.inl he
    · unfold invalidateTrace at he
      rw [List.eq_of_mem_replicate he]
      exact Or.inr ⟨i, rfl⟩

/-! ### Ordering machinery -/

theorem beforeAll_split (p q : Effect → Prop) (tr A B : List Effect)
    (htr : tr = A ++ B) (hA : ∀ e ∈ A, ¬ q e) (hB : ∀ e ∈ B, ¬ p e) :
    beforeAll p q tr := by
  subst htr
  intro i j hi hj hp hq
  have hiA : i < A.length := by
    by_contra hge
    rw [not_lt] at hge
    rw [List.getElem_append_right hge] at hp
    exact hB _ (List.getElem_mem _) hp
  have hjA : A.length ≤ j := by
    by_contra hlt
    rw [not_le] at hlt
    rw [List.getElem_append_left hlt] at hq
    exact hA _ (List.getElem_mem _) hq
  omega

theorem beforeAll_of_no_q (p q : Effect → Prop) (tr : List Effect)
    (h : ∀ e ∈ tr, ¬ q e) : beforeAll p q tr := by
  intro i j hi hj _ hq
  exact absurd hq (h _ (List.getElem_mem _))

/-! ### Lemmas about retryWithBackoff at the arguments the Invalidator passes -/

theorem retryAt3_ok0 {ε α : Type} (outcomes : Nat → Except ε α) (a : α)
    (h0 : outcomes 0 = Except.ok a) :
    retryWithBackoff outcomes 3 1000 = ⟨Except.ok a, [], 1⟩ := by
  unfold retryWithBackoff retryAux
  rw [h0]

theorem retryAt3_ok1 {ε α : Type} (outcomes : Nat → Except ε α) (e0 : ε)
    (a : α) (h0 : outcomes 0 = Except.error e0) (h1 : outcomes 1 = Except.ok a) :
    retryWithBackoff outcomes 3 1000 = ⟨Except.ok a, [2000], 2⟩ := by
  unfold retryWithBackoff retryAux
  rw [h0]
  simp only [if_neg (by omega : ¬ (2 : Nat) = 0)]
  unfold retryAux
  rw [h1]
  rfl

theorem retryAt3_ok2 {ε α : Type} (outcomes : Nat → Except ε α) (e0 e1 : ε)
    (a : α) (h0 : outcomes 0 = Except.error e0)
    (h1 : outcomes 1 = Except.error e1) (h2 : outcomes 2 = Except.ok a) :
    retryWithBackoff outcomes 3 1000 = ⟨Except.ok a, [2000, 4000], 3⟩ := by
  unfold retryWithBackoff retryAux
  rw [h0]
  simp only [if_neg (by omega : ¬ (2 : Nat) = 0)]
  unfold retryAux
  rw [h1]
  simp only [if_neg (by omega : ¬ (1 : Nat) = 0)]
  unfold retryAux
  rw [h2]
  rfl

theorem retryAt3_allFail {ε α : Type} (outcomes : Nat → Except ε α)
    (e0 e1 e2 : ε) (h0 : outcomes 0 = Except.error e0)
    (h1 : outcomes 1 = Except.error e1) (h2 : outcomes 2 = Except.error e2) :
    retryWithBackoff outcomes 3 1000 =
      ⟨Except.error (RetryError.fnError e2), [2000, 4000], 3⟩ := by
  unfold retryWithBackoff retryAux
  rw [h0]
  simp only [if_neg (by omega : ¬ (2 : Nat) = 0)]
  unfold retryAux
  rw [h1]
  simp only [if_neg (by omega : ¬ (1 : Nat) = 0)]
  unfold retryAux
  rw [h2]
  rfl

theorem invalidateTrace_eval (out : Nat → Bool) (i : String) (now : Nat) :
    invalidateTrace out i now =
      (List.replicate (retryWithBackoff (boolOutcomes out) 3 1000).attempts
        (Effect.createInvalidation i ["/*"] (Nat.repr now)),
       (retryWithBackoff (boolOutcomes out) 3 1000).result.toBool) := rfl

theorem invalidateTrace_characterized (out : Nat → Bool) (i : String)
    (now : Nat) :
    ∃ n, 1 ≤ n ∧ n ≤ 3 ∧
      (invalidateTrace out i now).1 =
        List.replicate n (Effect.createInvalidation i ["/*"] (Nat.repr now)) ∧
      (out 0 = true → n = 1) ∧
      ((invalidateTrace out i now).2 = true ↔
        (out 0 = true ∨ out 1 = true ∨ out 2 = true)) := by
  rw [invalidateTrace_eval]
  cases h0 : out 0 with
  | true =>
    rw [retryAt3_ok0 (boolOutcomes out) () (by simp [boolOutcomes, h0])]
    exact ⟨1, by omega, by omega, rfl, fun _ => rfl, by simp [Except.toBool]⟩
  | false =>
    cases h1 : out 1 with
    | true =>
      rw [retryAt3_ok1 (boolOutcomes out) () ()
        (by simp [boolOutcomes, h0]) (by simp [boolOutcomes, h1])]
      exact ⟨2, by omega, by omega, rfl, by simp [h0], by simp [Except.toBool, h1]⟩
    | false =>
      cases h2 : out 2 with
      | true =>
        rw [retryAt3_ok2 (boolOutcomes out) () () ()
          (by simp [boolOutcomes, h0]) (by simp [boolOutcomes, h1])
          (by simp [boolOutcomes, h2])]
        exact ⟨3, by omega, by omega, rfl, by simp [h0],
          by simp [Except.toBool, h2]⟩
      | false =>
        rw [retryAt3_allFail (boolOutcomes out) () () ()
          (by simp [boolOutcomes, h0]) (by simp [boolOutcomes, h1])
          (by simp [boolOutcomes, h2])]
        exact ⟨3, by omega, by omega, rfl, by simp [h0],
          by simp [Except.toBool, h0, h1, h2]⟩

/-! ### Lemmas about invalidationCount -/

theorem invalidationCount_append (a b : List Effect) :
    invalidationCount (a ++ b) = invalidationCount a + invalidationCount b := by
  induction a with
  | nil => simp [invalidationCount]
  | cons e rest ih =>
    cases e <;> (simp [invalidationCount, ih]; try omega)

theorem invalidationCount_replicate (n : Nat) (i : String) (p : List String)
    (r : String) :
    invalidationCount (List.replicate n (Effect.createInvalidation i p r)) = n := by
  induction n with
  | zero => rfl
  | succ m ih => simp [List.replicate_succ, invalidationCount, ih]

theorem invalidationCount_map_deleteObjects (bs : List (List String)) :
    invalidationCount (bs.map Effect.deleteObjects) = 0 := by
  induction bs with
  | nil => rfl
  | cons b rest ih => simpa [invalidationCount] using ih

theorem invalidationCount_purgePages (pfx : String)
    (pages : List (List String)) :
    invalidationCount (purgePages pfx pages) = 0 := by
  induction pages with
  | nil => rfl
  | cons page rest ih =>
    show invalidationCount (Effect.listObjects pfx ::
      ((batchesOf1000 page).map Effect.deleteObjects ++ purgePages pfx rest)) = 0
    rw [show invalidationCount (Effect.listObjects pfx ::
        ((batchesOf1000 page).map Effect.deleteObjects ++ purgePages pfx rest)) =
        invalidationCount ((batchesOf1000 page).map Effect.deleteObjects ++
          purgePages pfx rest) from rfl,
      invalidationCount_append, invalidationCount_map_deleteObjects, ih]

theorem invalidationCount_purgeTrace (pages : List (List String))
    (pfx : String) : invalidationCount (purgeTrace pages pfx) = 0 := by
  unfold purgeTrace
  by_cases hp : pages.isEmpty
  · rw [if_pos hp]; rfl
  · rw [if_neg hp]
    exact invalidationCount_purgePages pfx pages

theorem invalidationCount_uploadsTrace (db : String → Option String)
    (entries : List ZipEntry) (destinationPath : String) :
    invalidationCount (uploadsTrace db entries destinationPath) = 0 := by
  unfold uploadsTrace
  induction entries.filter (fun e => e.type = EntryType.File) with
  | nil => rfl
  | cons z zs ih => simpa [invalidationCount] using ih

/-! ### Unfolding the handler -/

theorem handlerModel_noBody (env : Env) (k : String)
    (hk : strStartsWith k "zip/" = true) (hb : env.body = BodyRead.noBody) :
    handlerModel env k = resolveAndInvalidate env (destinationPathOf k)
      (purgeTrace (listPagesOf env.bucketKeys (destinationPathOf k))
        (destinationPathOf k) ++ [Effect.getObject k]) := by
  simp [handlerModel, hk, hb]

theorem handlerModel_malformed (env : Env) (k : String)
    (hk : strStartsWith k "zip/" = true) (hb : env.body = BodyRead.malformed) :
    handlerModel env k =
      (purgeTrace (listPagesOf env.bucketKeys (destinationPathOf k))
        (destinationPathOf k) ++ [Effect.getObject k], HResult.failure) := by
  simp [handlerModel, hk, hb]

theorem handlerModel_entries (env : Env) (k : String) (es : List ZipEntry)
    (hk : strStartsWith k "zip/" = true) (hb : env.body = BodyRead.entries es) :
    handlerModel env k = resolveAndInvalidate env (destinationPathOf k)
      (purgeTrace (listPagesOf env.bucketKeys (destinationPathOf k))
        (destinationPathOf k) ++
        Effect.getObject k ::
          uploadsTrace env.mimeDb es (destinationPathOf k)) := by
  simp [handlerModel, hk, hb]

theorem resolveAndInvalidate_resErr (env : Env) (dp : String)
    (fx : List Effect) (er : DistErr)
    (hr : getDistributionIdByName env.distributions (firstSegment dp) =
      Except.error er) :
    resolveAndInvalidate env dp fx =
      (fx ++ [Effect.listDistributions], HResult.failure) := by
  unfold resolveAndInvalidate
  rw [hr]

theorem resolveAndInvalidate_resOk (env : Env) (dp : String)
    (fx : List Effect) (i : String)
    (hr : getDistributionIdByName env.distributions (firstSegment dp) =
      Except.ok i) :
    resolveAndInvalidate env dp fx =
      (fx ++ Effect.listDistributions ::
          (invalidateTrace env.invalidationOk i env.now).1,
        if (invalidateTrace env.invalidationOk i env.now).2 then
          HResult.success else HResult.failure) := by
  unfold resolveAndInvalidate
  rw [hr]

theorem uploadsTrace_mem_of_file {db : String → Option String}
    {es : List ZipEntry} {dp : String} {e : ZipEntry}
    (he : e ∈ es) (hf : e.type = EntryType.File) :
    Effect.upload (uploadFileKey dp e.path) (uploadContentType db e.path) ∈
      uploadsTrace db es dp := by
  unfold uploadsTrace
  exact List.mem_map_of_mem _ (List.mem_filter.mpr ⟨he, by simp [hf]⟩)

theorem purgeTrace_elem_classes {pages : List (List String)} {pfx : String}
    {e : Effect} (he : e ∈ purgeTrace pages pfx) :
    ¬ isUploadE e ∧ ¬ isInvalE e := by
  rcases purgeTrace_shape he with ⟨p, rfl⟩ | ⟨ks, rfl⟩ <;>
    exact ⟨fun h => h, fun h => h⟩

theorem uploadsTrace_elem_classes {db : String → Option String}
    {es : List ZipEntry} {dp : String} {e : Effect}
    (he : e ∈ uploadsTrace db es dp) :
    ¬ isDeleteE e ∧ ¬ isInvalE e := by
  obtain ⟨k2, c2, rfl⟩ := uploadsTrace_shape he
  exact ⟨fun h => h, fun h => h⟩

theorem resolveAndInvalidate_success_requests (env : Env) (dp : String)
    (fx : List Effect)
    (hfxshape : ∀ e ∈ fx, ¬ isInvalE e)
    (hfxcount : invalidationCount fx = 0)
    (hres : (resolveAndInvalidate env dp fx).2 = HResult.success) :
    (∀ d p r,
      Effect.createInvalidation d p r ∈ (resolveAndInvalidate env dp fx).1 →
        p = ["/*"] ∧ r = Nat.repr env.now) ∧
    1 ≤ invalidationCount (resolveAndInvalidate env dp fx).1 ∧
    invalidationCount (resolveAndInvalidate env dp fx).1 ≤ 3 ∧
    (env.invalidationOk 0 = true →
      invalidationCount (resolveAndInvalidate env dp fx).1 = 1) := by
  cases hr : getDistributionIdByName env.distributions (firstSegment dp) with
  | error er =>
    rw [resolveAndInvalidate_resErr env dp fx er hr] at hres
    exact absurd hres (by simp)
  | ok i =>
    rw [resolveAndInvalidate_resOk env dp fx i hr] at hres ⊢
    obtain ⟨n, hn1, hn3, heff, hone, _⟩ :=
      invalidateTrace_characterized env.invalidationOk i env.now
    rw [heff]
    have hcount : invalidationCount (fx ++ Effect.listDistributions ::
        List.replicate n (Effect.createInvalidation i ["/*"]
          (Nat.repr env.now))) = n := by
      rw [invalidationCount_append, hfxcount, Nat.zero_add]
      show invalidationCount (List.replicate n
        (Effect.createInvalidation i ["/*"] (Nat.repr env.now))) = n
      exact invalidationCount_replicate n i ["/*"] (Nat.repr env.now)
    refine ⟨?_, ?_, ?_, ?_⟩
    · intro d p r hm
      rcases List.mem_append.mp hm with hm | hm
      · exact absurd trivial (hfxshape _ hm)
      · rcases List.mem_cons.mp hm with heq | hm
        · exact Effect.noConfusion heq
        · have := List.eq_of_mem_replicate hm
          injection this with h1 h2 h3
          exact ⟨h2, h3⟩
    · rw [hcount]; exact hn1
    · rw [hcount]; exact hn3
    · intro h0
      rw [hcount]
      exact hone h0

/-! ## The claims -/

/-- Claim C1, counterexample.  In an invocation on `zip/app1/release.zip`
whose archive holds the root-level entry `index.html`, the code uploads
under `app1/release/index.html` with content type `text/html` (the
bundled MIME table maps `html` there) — `replace(/^.*?\//, "")` is a
no-op on a path with no `'/'` — whereas the key the claim computes,
`P + "/" + drop_first_segment("index.html")`, is `app1/release/`, and no
object is uploaded under that key. -/
theorem C1_root_entry_counterexample :
    Effect.upload "app1/release/index.html" "text/html" ∈
      (handlerModel envC1 "zip/app1/release.zip").1 ∧
    Effect.upload ("app1/release" ++ "/" ++
        specDropFirstSegment (stripLeadingZip "index.html"))
        "text/html" ∉
      (handlerModel envC1 "zip/app1/release.zip").1 := by decide

/-- Claim C1 as amended, covering every File entry of the invocation:
the content type of the uploaded object is always the MIME lookup of the
file extension with fallback `application/octet-stream`, and the key of
the uploaded object is the destination prefix, `"/"`, and — when the
entry path still contains a `'/'` after stripping any leading `zip/` —
the path with its first segment dropped; when the stripped path has no
`'/'` (an entry at the archive root) the path is kept whole instead. -/
theorem C1_publish_key_and_content_type (env : Env) (decodedKey : String)
    (es : List ZipEntry) (e : ZipEntry)
    (hk : strStartsWith decodedKey "zip/" = true)
    (hb : env.body = BodyRead.entries es)
    (he : e ∈ es) (hf : e.type = EntryType.File) :
    (strContainsSlash (stripLeadingZip e.path) = true →
      Effect.upload
        (destinationPathOf decodedKey ++ "/" ++
          specDropFirstSegment (stripLeadingZip e.path))
        ((mimeLookup env.mimeDb e.path).getD "application/octet-stream") ∈
        (handlerModel env decodedKey).1) ∧
    (strContainsSlash (stripLeadingZip e.path) = false →
      Effect.upload
        (destinationPathOf decodedKey ++ "/" ++ stripLeadingZip e.path)
        ((mimeLookup env.mimeDb e.path).getD "application/octet-stream") ∈
        (handlerModel env decodedKey).1) := by
  have hmem : Effect.upload (uploadFileKey (destinationPathOf decodedKey)
        e.path) (uploadContentType env.mimeDb e.path) ∈
      (handlerModel env decodedKey).1 := by
    rw [handlerModel_entries env decodedKey es hk hb]
    obtain ⟨tail, htr, _⟩ :=
      resolveAndInvalidate_trace env (destinationPathOf decodedKey)
        (purgeTrace (listPagesOf env.bucketKeys
            (destinationPathOf decodedKey)) (destinationPathOf decodedKey) ++
          Effect.getObject decodedKey ::
            uploadsTrace env.mimeDb es (destinationPathOf decodedKey))
    rw [htr]
    exact List.mem_append_left _ (List.mem_append_right _
      (List.mem_cons_of_mem _ (uploadsTrace_mem_of_file he hf)))
  constructor
  · intro hs
    have hkey : uploadFileKey (destinationPathOf decodedKey) e.path =
        destinationPathOf decodedKey ++ "/" ++
          specDropFirstSegment (stripLeadingZip e.path) := by
      unfold uploadFileKey
      rw [dropThroughFirstSlash_eq_spec hs]
    exact hkey ▸ hmem
  · intro hs
    have hkey : uploadFileKey (destinationPathOf decodedKey) e.path =
        destinationPathOf decodedKey ++ "/" ++ stripLeadingZip e.path := by
      unfold uploadFileKey
      rw [dropThroughFirstSlash_eq_self hs]
    exact hkey ▸ hmem

/-- Witness for C1, both branches: entry `release/index.html` of
`zip/app1/release.zip` lands at `app1/release/index.html` with content
type `text/html`, and the root-level entry `index.html` of the same
archive lands — kept whole — at `app1/release/index.html` as well. -/
theorem C1_publish_witness :
    Effect.upload "app1/release/index.html" "text/html" ∈
      (handlerModel envW1 "zip/app1/release.zip").1 ∧
    Effect.upload "app1/release/index.html" "text/html" ∈
      (handlerModel envC1 "zip/app1/release.zip").1 :=
  ⟨(C1_publish_key_and_content_type envW1 "zip/app1/release.zip" _
      ⟨"release/index.html", EntryType.File⟩
      (by decide) rfl (by decide) rfl).1 (by decide),
   (C1_publish_key_and_content_type envC1 "zip/app1/release.zip" _
      ⟨"index.html", EntryType.File⟩
      (by decide) rfl (by decide) rfl).2 (by decide)⟩

/-- Claim C2, counterexample.  The finish handler of
`extractAndUploadFromStream` resolves without awaiting the promises the
async entry listener created, so the synchronization of the source
admits this schedule of an invocation with one file entry: the upload
starts, the parse finishes, the invalidation is issued, and only then
does the upload complete — the upload does not complete strictly before
the cache invalidation is issued. -/
theorem C2_unawaited_completion_counterexample :
    scheduleOk 1
      [PubEvent.uploadStarted 0, PubEvent.finishFired,
        PubEvent.invalidationIssued, PubEvent.uploadCompleted 0] ∧
    schedPrecedes
      [PubEvent.uploadStarted 0, PubEvent.finishFired,
        PubEvent.invalidationIssued, PubEvent.uploadCompleted 0]
      PubEvent.invalidationIssued (PubEvent.uploadCompleted 0) := by decide

/-- Claim C2 as amended: in every invocation that reaches the publish
stage, the purge — which the handler awaits in full before even opening
the source object — precedes every upload, and every upload request is
issued strictly before the invalidation is issued (both shown on the
issue-order trace); moreover in every schedule the synchronization of
the source admits, each upload starts before the invalidation is issued.
The completion of an upload, however, is not awaited, and may land after
the invalidation submission. -/
theorem C2_purge_upload_invalidation_order (env : Env)
    (decodedKey : String) (es : List ZipEntry) (n : Nat)
    (s : List PubEvent)
    (hk : strStartsWith decodedKey "zip/" = true)
    (hb : env.body = BodyRead.entries es)
    (hsched : scheduleOk n s) :
    beforeAll isDeleteE isUploadE (handlerModel env decodedKey).1 ∧
    beforeAll isUploadE isInvalE (handlerModel env decodedKey).1 ∧
    (∀ i ∈ List.range n,
      schedPrecedes s (PubEvent.uploadStarted i)
        PubEvent.invalidationIssued) := by
  obtain ⟨-, -, -, -, -, h6, h7⟩ := hsched
  rw [handlerModel_entries env decodedKey es hk hb]
  obtain ⟨tail, htr, htail⟩ :=
    resolveAndInvalidate_trace env (destinationPathOf decodedKey)
      (purgeTrace (listPagesOf env.bucketKeys (destinationPathOf decodedKey))
        (destinationPathOf decodedKey) ++
        Effect.getObject decodedKey ::
          uploadsTrace env.mimeDb es (destinationPathOf decodedKey))
  rw [htr]
  refine ⟨?_, ?_, fun i hi => Nat.lt_trans (h6 i hi) h7⟩
  · refine beforeAll_split isDeleteE isUploadE _
      (purgeTrace (listPagesOf env.bucketKeys (destinationPathOf decodedKey))
        (destinationPathOf decodedKey))
      (Effect.getObject decodedKey ::
        (uploadsTrace env.mimeDb es (destinationPathOf decodedKey) ++ tail))
      (by simp) ?_ ?_
    · intro e he
      exact (purgeTrace_elem_classes he).1
    · intro e he
      rcases List.mem_cons.mp he with rfl | he
      · exact fun h => h
      · rcases List.mem_append.mp he with he | he
        · exact (uploadsTrace_elem_classes he).1
        · rcases htail e he with rfl | ⟨i, rfl⟩ <;> exact fun h => h
  · refine beforeAll_split isUploadE isInvalE _
      (purgeTrace (listPagesOf env.bucketKeys (destinationPathOf decodedKey))
        (destinationPathOf decodedKey) ++
        Effect.getObject decodedKey ::
          uploadsTrace env.mimeDb es (destinationPathOf decodedKey))
      tail rfl ?_ ?_
    · intro e he
      rcases List.mem_append.mp he with he | he
      · exact (purgeTrace_elem_classes he).2
      · rcases List.mem_cons.mp he with rfl | he
        · exact fun h => h
        · exact (uploadsTrace_elem_classes he).2
    · intro e he
      rcases htail e he with rfl | ⟨i, rfl⟩
      · exact fun h => h
      · exact fun h => h

/-- Witness for C2 on a concrete invocation whose trace holds a delete,
an upload and an invalidation, together with a concrete admitted
schedule. -/
theorem C2_order_witness :
    beforeAll isDeleteE isUploadE (handlerModel envW2 "zip/app1/site.zip").1 ∧
    beforeAll isUploadE isInvalE (handlerModel envW2 "zip/app1/site.zip").1 ∧
    (∀ i ∈ List.range 1,
      schedPrecedes
        [PubEvent.uploadStarted 0, PubEvent.uploadCompleted 0,
          PubEvent.finishFired, PubEvent.invalidationIssued]
        (PubEvent.uploadStarted i) PubEvent.invalidationIssued) :=
  C2_purge_upload_invalidation_order envW2 "zip/app1/site.zip" _ 1
    [PubEvent.uploadStarted 0, PubEvent.uploadCompleted 0,
      PubEvent.finishFired, PubEvent.invalidationIssued]
    (by decide) rfl (by decide)

/-- Claim C3, counterexample.  The key `zip/notes.txt` fails the staging
pattern `^zip/.+\.zip$` (it has no `.zip` suffix), yet the handler — which
tests only the `zip/` front — proceeds and issues a bulk delete under the
derived destination `notes.txt`, so the invocation does not perform zero
writes. -/
theorem C3_nonzip_suffix_counterexample :
    matchesStagingPattern "zip/notes.txt" = false ∧
    Effect.deleteObjects ["notes.txt/old.html"] ∈
      (handlerModel envC3 "zip/notes.txt").1 := by decide

/-- Claim C3 as amended: for every notification whose decoded key does
not start with `zip/`, the handler performs no request at all — no
deletes, no uploads, no invalidations — and returns silently with
success.  (The `.zip` suffix is never tested by the code.) -/
theorem C3_nonstaging_key_silent_skip (env : Env) (decodedKey : String)
    (h : strStartsWith decodedKey "zip/" = false) :
    handlerModel env decodedKey = ([], HResult.success) := by
  simp [handlerModel, h]

/-- Witness for C3 at the concrete key `docs/readme.txt`. -/
theorem C3_silent_skip_witness :
    handlerModel envC3 "docs/readme.txt" = ([], HResult.success) :=
  C3_nonstaging_key_silent_skip envC3 "docs/readme.txt" (by decide)

/-- Claim C4, counterexample.  A non-retryable error (`NoSuchDistribution`
names a fatal CloudFront failure) is nevertheless retried — the wrapped
function is called 3 times, not once — and only two backoff waits occur
(2000 then 4000 ms), not the three waits that `up to 3 retries` would
produce. -/
theorem C4_fatal_error_retried_counterexample :
    (retryWithBackoff
      (fun _ => (Except.error "NoSuchDistribution" : Except String Unit))
      3 1000).attempts = 3 ∧
    ¬ (retryWithBackoff
      (fun _ => (Except.error "NoSuchDistribution" : Except String Unit))
      3 1000).attempts = 1 ∧
    (retryWithBackoff
      (fun _ => (Except.error "NoSuchDistribution" : Except String Unit))
      3 1000).delays = [2000, 4000] ∧
    ¬ (retryWithBackoff
      (fun _ => (Except.error "NoSuchDistribution" : Except String Unit))
      3 1000).delays = [2000, 4000, 8000] := by
  refine ⟨rfl, by decide, rfl, by decide⟩

/-- Claim C4 as amended: at the arguments the Invalidator passes (`retries = 3`,
initial delay 1000 ms) the combinator makes at most 3 calls in total —
the initial attempt plus up to 2 retries — treating every error alike
(there is no fatal-error bypass); the backoff waits are 2000 ms then
4000 ms, doubling monotonically; when the final attempt fails its error
propagates as the failure. -/
theorem C4_retry_behavior {ε α : Type} (outcomes : Nat → Except ε α) :
    (∀ a, outcomes 0 = Except.ok a →
      retryWithBackoff outcomes 3 1000 = ⟨Except.ok a, [], 1⟩) ∧
    (∀ e0 a, outcomes 0 = Except.error e0 → outcomes 1 = Except.ok a →
      retryWithBackoff outcomes 3 1000 = ⟨Except.ok a, [2000], 2⟩) ∧
    (∀ e0 e1 a, outcomes 0 = Except.error e0 → outcomes 1 = Except.error e1 →
      outcomes 2 = Except.ok a →
      retryWithBackoff outcomes 3 1000 = ⟨Except.ok a, [2000, 4000], 3⟩) ∧
    (∀ e0 e1 e2, outcomes 0 = Except.error e0 → outcomes 1 = Except.error e1 →
      outcomes 2 = Except.error e2 →
      retryWithBackoff outcomes 3 1000 =
        ⟨Except.error (RetryError.fnError e2), [2000, 4000], 3⟩) :=
  ⟨fun a h0 => retryAt3_ok0 outcomes a h0,
   fun e0 a h0 h1 => retryAt3_ok1 outcomes e0 a h0 h1,
   fun e0 e1 a h0 h1 h2 => retryAt3_ok2 outcomes e0 e1 a h0 h1 h2,
   fun e0 e1 e2 h0 h1 h2 => retryAt3_allFail outcomes e0 e1 e2 h0 h1 h2⟩

/-- Witness for C4: all three attempts reject with a transient error and
the last error propagates after waits of 2000 and 4000 ms. -/
theorem C4_retry_witness :
    retryWithBackoff
      (fun _ => (Except.error "ServiceUnavailable" : Except String Unit))
      3 1000 =
      ⟨Except.error (RetryError.fnError "ServiceUnavailable"),
        [2000, 4000], 3⟩ :=
  (C4_retry_behavior
    (fun _ => (Except.error "ServiceUnavailable" : Except String Unit))).2.2.2
    "ServiceUnavailable" "ServiceUnavailable" "ServiceUnavailable" rfl rfl rfl

/-- Claim C5 (confirmed): for distribution lists in which every entry
carries a non-empty id — the data model of the spec, where a distribution is
identified by an opaque id — the resolver fails with `NoDistributions`
when the list is absent or empty, fails with `NotFound` when the comment of no
entry equals the name exactly, and otherwise returns the id of the
first entry whose comment equals the name. -/
theorem C5_distribution_resolver (items : Option (List Distribution))
    (name : String)
    (hids : ∀ ds, items = some ds → ∀ d ∈ ds, ∃ i, d.Id = some i ∧ i ≠ "") :
    ((items = none ∨ items = some []) →
      getDistributionIdByName items name =
        Except.error DistErr.NoDistributions) ∧
    (∀ ds, items = some ds → ds ≠ [] →
      (∀ d ∈ ds, d.Comment ≠ some name) →
      getDistributionIdByName items name =
        Except.error (DistErr.NotFound name)) ∧
    (∀ ds d, items = some ds → ds.find? (commentMatches name) = some d →
      ∃ i, d.Id = some i ∧
        getDistributionIdByName items name = Except.ok i) := by
  refine ⟨?_, ?_, ?_⟩
  · rintro (rfl | rfl)
    · rfl
    · rfl
  · rintro ds rfl hne hnc
    show (if ds.isEmpty = true then Except.error DistErr.NoDistributions
      else match ds.find? (commentMatches name) with
        | none => Except.error (DistErr.NotFound name)
        | some d =>
          match d.Id with
          | none => Except.error (DistErr.NotFound name)
          | some i => if i = "" then Except.error (DistErr.NotFound name)
              else Except.ok i) = Except.error (DistErr.NotFound name)
    rw [if_neg (by simpa [List.isEmpty_iff] using hne)]
    have hfind : ds.find? (commentMatches name) = none := by
      rw [List.find?_eq_none]
      intro d hd
      simp [commentMatches, hnc d hd]
    rw [hfind]
  · rintro ds d rfl hfind
    have hd : d ∈ ds := List.mem_of_find?_eq_some hfind
    obtain ⟨i, hId, hine⟩ := hids ds rfl d hd
    refine ⟨i, hId, ?_⟩
    show (if ds.isEmpty = true then Except.error DistErr.NoDistributions
      else match ds.find? (commentMatches name) with
        | none => Except.error (DistErr.NotFound name)
        | some d =>
          match d.Id with
          | none => Except.error (DistErr.NotFound name)
          | some i => if i = "" then Except.error (DistErr.NotFound name)
              else Except.ok i) = Except.ok i
    rw [if_neg (by
      simp only [List.isEmpty_iff]
      rintro rfl
      simp [List.find?] at hfind)]
    simp only [hfind, hId]
    rw [if_neg hine]

/-- Witness for C5: two distributions share the comment `site`; the
resolver returns the id of the first. -/
theorem C5_resolver_witness :
    getDistributionIdByName
      (some [⟨some "E2FIRST", some "site"⟩, ⟨some "E2SECOND", some "site"⟩])
      "site" = Except.ok "E2FIRST" := by
  obtain ⟨i, hi, hres⟩ :=
    (C5_distribution_resolver
      (some [⟨some "E2FIRST", some "site"⟩, ⟨some "E2SECOND", some "site"⟩])
      "site" (by decide)).2.2
      [⟨some "E2FIRST", some "site"⟩, ⟨some "E2SECOND", some "site"⟩]
      ⟨some "E2FIRST", some "site"⟩ rfl (by decide)
  injection hi with h
  subst h
  exact hres

/-- Claim C6.  The code computes the destination prefix of the key
`zip/.zip` as the empty string, performs no `InvalidKey` check, and
invokes the purge with prefix `""` — whose listing matches every key in
the bucket, the staged archives included — where the spec requires the
dispatcher to fail with `InvalidKey` and never to purge the empty
prefix. -/
theorem C6_empty_destination_purged :
    destinationPathOf "zip/.zip" = "" ∧
    Effect.listObjects "" ∈ (handlerModel envC6 "zip/.zip").1 ∧
    Effect.deleteObjects ["app1/index.html", "zip/app1/site.zip"] ∈
      (handlerModel envC6 "zip/.zip").1 := by decide

/-- Claim C7, counterexample.  When the object-read response carries no
body, the source returns only from `extractAndUploadZipFile`; the handler
then proceeds to distribution resolution and cache invalidation — both
appear in the trace, where the claim requires neither to run. -/
theorem C7_missing_body_counterexample :
    Effect.listDistributions ∈ (handlerModel envC7 "zip/app1/site.zip").1 ∧
    Effect.createInvalidation "D1" ["/*"] "5" ∈
      (handlerModel envC7 "zip/app1/site.zip").1 ∧
    (handlerModel envC7 "zip/app1/site.zip").2 = HResult.success := by decide

/-- Claim C7 as amended: when the object-read response carries no body,
the code logs and returns from the extraction step only — no entries are
extracted and nothing is uploaded — and the handler still resolves the
distribution and, when resolution succeeds and the first invalidation
submission goes through, completes successfully with an invalidation
issued. -/
theorem C7_missing_body_behavior (env : Env) (decodedKey : String)
    (hk : strStartsWith decodedKey "zip/" = true)
    (hb : env.body = BodyRead.noBody) :
    (∀ kk c, Effect.upload kk c ∉ (handlerModel env decodedKey).1) ∧
    Effect.listDistributions ∈ (handlerModel env decodedKey).1 ∧
    (∀ i, getDistributionIdByName env.distributions
        (firstSegment (destinationPathOf decodedKey)) = Except.ok i →
      env.invalidationOk 0 = true →
      (handlerModel env decodedKey).2 = HResult.success ∧
      Effect.createInvalidation i ["/*"] (Nat.repr env.now) ∈
        (handlerModel env decodedKey).1) := by
  rw [handlerModel_noBody env decodedKey hk hb]
  cases hr : getDistributionIdByName env.distributions
      (firstSegment (destinationPathOf decodedKey)) with
  | error er =>
    rw [resolveAndInvalidate_resErr env _ _ er hr]
    refine ⟨?_, ?_, ?_⟩
    · intro kk c hm
      rcases List.mem_append.mp hm with hm | hm
      · rcases List.mem_append.mp hm with hm | hm
        · exact (purgeTrace_elem_classes hm).1 trivial
        · exact Effect.noConfusion (List.mem_singleton.mp hm)
      · exact Effect.noConfusion (List.mem_singleton.mp hm)
    · exact List.mem_append_right _ (List.mem_singleton.mpr rfl)
    · intro i hi
      exact Except.noConfusion hi
  | ok i =>
    rw [resolveAndInvalidate_resOk env _ _ i hr]
    obtain ⟨n, hn1, _, heff, hone, hiff⟩ :=
      invalidateTrace_characterized env.invalidationOk i env.now
    refine ⟨?_, ?_, ?_⟩
    · intro kk c hm
      rcases List.mem_append.mp hm with hm | hm
      · rcases List.mem_append.mp hm with hm | hm
        · exact (purgeTrace_elem_classes hm).1 trivial
        · exact Effect.noConfusion (List.mem_singleton.mp hm)
      · rcases List.mem_cons.mp hm with heq | hm
        · exact Effect.noConfusion heq
        · rw [heff] at hm
          exact Effect.noConfusion (List.eq_of_mem_replicate hm)
    · exact List.mem_append_right _ (List.mem_cons_self _ _)
    · intro i2 hi2 h0
      injection hi2 with hi2
      subst hi2
      have htrue : (invalidateTrace env.invalidationOk i env.now).2 = true :=
        hiff.mpr (Or.inl h0)
      refine ⟨by rw [htrue]; rfl, ?_⟩
      apply List.mem_append_right
      apply List.mem_cons_of_mem
      rw [heff]
      rw [hone h0]
      exact List.mem_replicate.mpr ⟨by omega, rfl⟩

/-- Witness for C7: the no-body invocation still lists distributions and
issues the invalidation, ending in success. -/
theorem C7_missing_body_witness :
    Effect.listDistributions ∈ (handlerModel envC7 "zip/app1/dist.zip").1 ∧
    (handlerModel envC7 "zip/app1/dist.zip").2 = HResult.success :=
  ⟨(C7_missing_body_behavior envC7 "zip/app1/dist.zip" (by decide) rfl).2.1,
   ((C7_missing_body_behavior envC7 "zip/app1/dist.zip" (by decide) rfl).2.2
     "D1" rfl rfl).1⟩

/-- Claim C8, counterexample.  With a transient failure on the first
submission, one successful invocation issues two `CreateInvalidation`
requests, not exactly one; and a second invocation in the same process
observing the same clock reading issues a request carrying the identical
caller-reference `"7"`, so the reference is not unique among the
requests of the process. -/
theorem C8_duplicate_reference_counterexample :
    (handlerModel envC8 "zip/app1/v1.zip").2 = HResult.success ∧
    invalidationCount (handlerModel envC8 "zip/app1/v1.zip").1 = 2 ∧
    Effect.createInvalidation "D1" ["/*"] "7" ∈
      (handlerModel envC8 "zip/app1/v1.zip").1 ∧
    Effect.createInvalidation "D1" ["/*"] "7" ∈
      (handlerModel envC8 "zip/app1/v2.zip").1 := by decide

/-- Claim C8 as amended: every invocation that ends in success and whose
key was accepted issues between 1 and 3 `CreateInvalidation` requests —
exactly one when the first submission succeeds — and every such request
carries the path list exactly `["/*"]` and the caller-reference
`Date.now()` rendered in decimal, so references collide exactly when two
invocations observe clock readings with the same rendering. -/
theorem C8_invalidation_requests (env : Env) (decodedKey : String)
    (hk : strStartsWith decodedKey "zip/" = true)
    (hres : (handlerModel env decodedKey).2 = HResult.success) :
    (∀ d p r,
      Effect.createInvalidation d p r ∈ (handlerModel env decodedKey).1 →
        p = ["/*"] ∧ r = Nat.repr env.now) ∧
    1 ≤ invalidationCount (handlerModel env decodedKey).1 ∧
    invalidationCount (handlerModel env decodedKey).1 ≤ 3 ∧
    (env.invalidationOk 0 = true →
      invalidationCount (handlerModel env decodedKey).1 = 1) := by
  cases hbody : env.body with
  | noBody =>
    rw [handlerModel_noBody env decodedKey hk hbody] at hres ⊢
    refine resolveAndInvalidate_success_requests env _ _ ?_ ?_ hres
    · intro e he
      rcases List.mem_append.mp he with he | he
      · exact (purgeTrace_elem_classes he).2
      · rw [List.mem_singleton.mp he]
        exact fun h => h
    · rw [invalidationCount_append, invalidationCount_purgeTrace,
        Nat.zero_add]
      rfl
  | malformed =>
    rw [handlerModel_malformed env decodedKey hk hbody] at hres
    exact absurd hres (by simp)
  | entries es =>
    rw [handlerModel_entries env decodedKey es hk hbody] at hres ⊢
    refine resolveAndInvalidate_success_requests env _ _ ?_ ?_ hres
    · intro e he
      rcases List.mem_append.mp he with he | he
      · exact (purgeTrace_elem_classes he).2
      · rcases List.mem_cons.mp he with rfl | he
        · exact fun h => h
        · exact (uploadsTrace_elem_classes he).2
    · rw [invalidationCount_append, invalidationCount_purgeTrace, Nat.zero_add]
      show invalidationCount (uploadsTrace env.mimeDb es
        (destinationPathOf decodedKey)) = 0
      exact invalidationCount_uploadsTrace env.mimeDb es
        (destinationPathOf decodedKey)

/-- Witness for C8: a plain successful invocation issues exactly one
invalidation request. -/
theorem C8_invalidation_witness :
    invalidationCount (handlerModel envW8 "zip/app1/v1.zip").1 = 1 :=
  (C8_invalidation_requests envW8 "zip/app1/v1.zip" (by decide)
    (by decide)).2.2.2 rfl

/-- Claim C9 (confirmed): every bulk-delete request issued by the purge,
over every listing page and every continuation, carries at most 1000
object keys. -/
theorem C9_delete_batch_ceiling (pages : List (List String)) (pfx : String)
    (ks : List String)
    (h : Effect.deleteObjects ks ∈ purgeTrace pages pfx) :
    ks.length ≤ 1000 :=
  purgeTrace_deleteObjects_le_1000 h

/-- Witness for C9 at a concrete one-page purge. -/
theorem C9_batch_ceiling_witness :
    Effect.deleteObjects ["app1/a.txt"] ∈ purgeTrace [["app1/a.txt"]] "app1" ∧
    (["app1/a.txt"] : List String).length ≤ 1000 :=
  ⟨by decide,
    C9_delete_batch_ceiling [["app1/a.txt"]] "app1" ["app1/a.txt"] (by decide)⟩

/-- Claim C10 (confirmed): the purge deletes exactly the keys that
textually start with the destination-prefix string, with no
path-separator boundary appended; in particular for destination
`app1/release` the sibling key `app1/release-notes/a.txt` is listed and
deleted alongside `app1/release/index.html`. -/
theorem C10_purge_raw_textual_match :
    (∀ bucket pfx,
      deletedKeys (purgeTrace (listPagesOf bucket pfx) pfx) =
        bucket.filter (fun k => strStartsWith k pfx)) ∧
    deletedKeys (purgeTrace (listPagesOf
        ["app1/release/index.html", "app1/release-notes/a.txt",
          "app1/other/b.txt"] "app1/release") "app1/release") =
      ["app1/release/index.html", "app1/release-notes/a.txt"] :=
  ⟨fun bucket pfx => deletedKeys_purgeTrace_filter bucket pfx, by decide⟩

end SiteSync

